import Mathlib

/-!
Verification development for the scythe metadata-extraction framework.

The development embeds the core of the framework as executable Lean
definitions:
  - a JSON-like value type `JVal` standing for the nested mappings the
    nested-value store manipulates (scythe/utils, functions
    `get_nested_dict_value_by_path`, `set_nested_dict_value`,
    `set_nested_dict_value_with_units`, `map_dict_values`);
  - the file-grouping engine (scythe/utils/grouping.py);
  - the extractor directory sweep (scythe/base.py) and the adapter
    compatibility check (scythe/adapters/base.py).

Raised Python exceptions are modelled with `Except Unit`: an `.error ()`
result stands for the call raising (KeyError is the one exception the
source catches itself, and that catch is folded into the definitions
exactly where the source catches it).
-/

namespace Scythe

/-- JSON-like values: the shape of the nested metadata dictionaries the
store manipulates. Python `None` is `JVal.null`; mappings keep their
insertion order, as Python dicts do, so they are association lists. -/
inductive JVal where
  | null : JVal
  | int (n : Int) : JVal
  | str (s : String) : JVal
  | list (xs : List JVal) : JVal
  | dict (entries : List (String × JVal)) : JVal
deriving Repr

/-- Python `x is None` identity test on a value. -/
def JVal.isNull : JVal → Bool
  | .null => true
  | _ => false

/-- Lookup of a key in a (Python dict) association list. -/
def assocLookup : List (String × JVal) → String → Option JVal
  | [], _ => none
  | (k, v) :: rest, key => if k = key then some v else assocLookup rest key

/-- Python dict assignment `d[k] = v`: replace the value in place if the
key is present, otherwise append the new binding at the end. -/
def assocSet : List (String × JVal) → String → JVal → List (String × JVal)
  | [], k, v => [(k, v)]
  | (k', v') :: rest, k, v =>
      if k' = k then (k, v) :: rest else (k', v') :: assocSet rest k v

/-- The membership test `sub_dict in [{}, dict(), [], "", None]` from
`get_nested_dict_value_by_path`: true for the empty mapping, the empty
list, the empty string and `None`. -/
def isEmptyVal : JVal → Bool
  | .null => true
  | .str s => s = ""
  | .list xs => xs.isEmpty
  | .dict es => es.isEmpty
  | _ => false

/-- The key-by-key traversal loop of `get_nested_dict_value_by_path`
together with its empty-value coercion: a missing key (Python `KeyError`,
caught by the source) yields `null`; indexing a non-mapping with a key
raises `TypeError` (not caught), modelled as `.error ()`; the resolved
value is coerced to `null` when it is empty. -/
def getPath : JVal → List String → Except Unit JVal
  | d, [] => .ok (if isEmptyVal d then .null else d)
  | .dict es, k :: rest =>
      match assocLookup es k with
      | some v => getPath v rest
      | none => .ok .null
  | _, _ :: _ => .error ()

/-- Raw (uncoerced) resolution of a path through nested mappings: `some X`
exactly when every key on the path is present, each intermediate value is
a mapping, and the stored value at the end is `X`. Used to state what a
container literally holds at a path. -/
def rawResolve : JVal → List String → Option JVal
  | d, [] => some d
  | .dict es, k :: rest =>
      match assocLookup es k with
      | some v => rawResolve v rest
      | none => none
  | _, _ :: _ => none

/-- True when the traversal of `get_nested_dict_value_by_path` stays
inside mappings until it either exhausts the path or meets a missing key;
the getter raises exactly when this is false. -/
def safeTraversal : JVal → List String → Bool
  | _, [] => true
  | .dict es, k :: rest =>
      match assocLookup es k with
      | some v => safeTraversal v rest
      | none => true
  | _, _ :: _ => false

/-- `get_nested_dict_value_by_path(nest_dict, path, cast)` from
scythe/utils. A string path is already a one-element list here (the
source wraps a bare string into a one-tuple). The optional `cast` is a
function whose `none` result models the cast raising, in which case the
value is returned uncast; the cast is only reached when the resolved
value is not (coerced to) `None`. -/
def get_nested_dict_value_by_path (nest_dict : JVal) (path : List String)
    (cast : Option (JVal → Option JVal)) : Except Unit JVal :=
  match getPath nest_dict path with
  | .error e => .error e
  | .ok v =>
      if v.isNull then .ok .null
      else
        match cast with
        | none => .ok v
        | some c =>
            match c v with
            | some w => .ok w
            | none => .ok v

/-- The `setdefault` walk over `path[:-1]` followed by the (conditional)
assignment `nest_dict[path[-1]] = value` from `set_nested_dict_value`.
With `doAssign = false` the walk still inserts empty mappings for missing
intermediate keys, as `setdefault` does, but the final assignment is
skipped. An empty path raises `IndexError` at `path[-1]` when the
assignment is attempted; `setdefault` on a non-mapping raises
`AttributeError`; assigning into a non-mapping raises `TypeError` --
all modelled as `.error ()`. -/
def walkAssign : JVal → List String → JVal → Bool → Except Unit JVal
  | d, [], _, doAssign => if doAssign then .error () else .ok d
  | d, [k], v, doAssign =>
      match d with
      | .dict es => .ok (.dict (if doAssign then assocSet es k v else es))
      | _ => if doAssign then .error () else .ok d
  | d, k :: k' :: rest, v, doAssign =>
      match d with
      | .dict es =>
          match walkAssign ((assocLookup es k).getD (.dict [])) (k' :: rest) v doAssign with
          | .ok child => .ok (.dict (assocSet es k child))
          | .error e => .error e
      | _ => .error ()

/-- `set_nested_dict_value(nest_dict, path, value, override)` from
scythe/utils: immediately returns when `value` is `None`; otherwise reads
the current value through the empty-coercing getter, walks/creates the
intermediate mappings, and assigns exactly when the read value was `None`
or `override` is set. -/
def set_nested_dict_value (nest_dict : JVal) (path : List String)
    (value : JVal) (override : Bool) : Except Unit JVal :=
  if value.isNull then .ok nest_dict
  else
    match getPath nest_dict path with
    | .error e => .error e
    | .ok orig => walkAssign nest_dict path value (orig.isNull || override)

/-- `set_nested_dict_value_with_units(nest_dict, path, value, units,
override, fn)` from scythe/utils: when `value` is not `None`, applies
`fn` if supplied, wraps the result as a mapping with key `value` and
(when units are given) key `units`, and delegates to
`set_nested_dict_value`. -/
def set_nested_dict_value_with_units (nest_dict : JVal) (path : List String)
    (value : JVal) (units : Option String) (override : Bool)
    (fn : Option (JVal → JVal)) : Except Unit JVal :=
  if value.isNull then .ok nest_dict
  else
    let v := match fn with
      | some f => f value
      | none => value
    let toSet : JVal := .dict (("value", v) ::
      (match units with
       | some u => [("units", .str u)]
       | none => []))
    set_nested_dict_value nest_dict path toSet override

/-- The unit-wrapped mapping `set_nested_dict_value_with_units` builds:
key `value` holds the (possibly converted) value; key `units` is present
exactly when units were supplied. -/
def unitsWrap (value : JVal) (units : Option String)
    (fn : Option (JVal → JVal)) : JVal :=
  .dict (("value", match fn with | some f => f value | none => value) ::
    (match units with
     | some u => [("units", .str u)]
     | none => []))

/-- Structure of one element of the mapping list consumed by
`map_dict_values` (the `MappingElements` TypedDict of scythe/utils). The
source dictionary is carried by the rule (it is only read); the
destination dictionary, which the engine mutates, is threaded through the
engine as explicit state. A field holding `none` models the key being
absent from the rule dictionary; for `cast_fn`, `units` and `conv_fn` the
source makes this equivalent to the key being present with value `None`
(it calls `setdefault(..., None)` on them), while `override` gets no such
default. -/
structure MappingElements where
  source_dict : JVal
  source_path : List String
  dest_path : List String
  cast_fn : Option (JVal → Option JVal)
  units : Option String
  conv_fn : Option (JVal → JVal)
  override : Option Bool

/-- The body of the loop of `map_dict_values` for one mapping element
`m`: read the source value with `get_nested_dict_value_by_path` using the
cast of the rule, then write it with `set_nested_dict_value_with_units`
using the units, conversion function and override flag of the rule.
Looking up `m["override"]` raises `KeyError` when the rule has no
`override` key, since the source applies `setdefault` only to `cast_fn`,
`units` and `conv_fn`. -/
def applyMapping (dest_dict : JVal) (m : MappingElements) : Except Unit JVal :=
  match get_nested_dict_value_by_path m.source_dict m.source_path m.cast_fn with
  | .error e => .error e
  | .ok value =>
      match m.override with
      | none => .error ()
      | some ov =>
          set_nested_dict_value_with_units dest_dict m.dest_path value
            m.units ov m.conv_fn

/-- `map_dict_values(mapping)` from scythe/utils: apply the mapping
elements strictly in list order, each one a get from its source followed
by a unit-wrapping set into the destination, stopping at the first raised
exception. -/
def map_dict_values (dest_dict : JVal) : List MappingElements → Except Unit JVal
  | [] => .ok dest_dict
  | m :: rest =>
      match applyMapping dest_dict m with
      | .error e => .error e
      | .ok dest => map_dict_values dest rest

/-- Python `str.lower` on one ASCII character (modelled from the Python
standard library, which is outside this repository). -/
def charToLower (c : Char) : Char :=
  if 'A' ≤ c ∧ c ≤ 'Z' then Char.ofNat (c.toNat + 32) else c

/-- Python `str.lower` (modelled from the Python standard library, which
is outside this repository; ASCII case mapping suffices here). -/
def strToLower (s : String) : String :=
  String.mk (s.toList.map charToLower)

/-- Python `str.startswith` (modelled from the Python standard library,
which is outside this repository). -/
def strStartsWith (s pre : String) : Bool :=
  pre.toList.isPrefixOf s.toList

/-- Python string comparison, code point by code point, on character
lists (modelled from the Python standard library, which is outside this
repository). -/
def charListLt : List Char → List Char → Bool
  | [], [] => false
  | [], _ :: _ => true
  | _ :: _, [] => false
  | a :: as, b :: bs =>
      if a.toNat < b.toNat then true
      else if b.toNat < a.toNat then false
      else charListLt as bs

/-- Python `<` on strings (modelled from the Python standard library,
which is outside this repository). -/
def strLt (a b : String) : Bool := charListLt a.toList b.toList

/-- Python `os.path.basename` for POSIX paths: the part of the path after
the last slash (modelled from the Python standard library, which is
outside this repository). -/
def basename (p : String) : String :=
  String.mk ((p.toList.reverse.takeWhile (fun c => c ≠ '/')).reverse)

/-- Python `os.path.dirname` for POSIX paths: the part of the path before
the last slash, with trailing slashes stripped unless the result is all
slashes (modelled from the Python standard library, which is outside this
repository). -/
def dirname (p : String) : String :=
  let head := (p.toList.reverse.dropWhile (fun c => c ≠ '/')).reverse
  if head.isEmpty then ""
  else if head.all (fun c => c = '/') then String.mk head
  else String.mk ((head.reverse.dropWhile (fun c => c = '/')).reverse)

/-- The matching loop of `group_by_postfix` (scythe/utils/grouping.py):
for each file, lowercase its basename and test `startswith` against every
vocabulary entry as written; skip the file when no entry matches,
otherwise record `(filename, vtype, (dir, ext))` with `vtype` the FIRST
matching entry (in vocabulary order) and `ext` the basename with the
first `len(vtype)` characters removed. -/
def matchVocab (files : List String) (vocabulary : List String) :
    List (String × String × String × String) :=
  files.filterMap (fun filename =>
    let name := basename filename
    let nameLower := strToLower name
    match vocabulary.findIdx? (fun n => strStartsWith nameLower n) with
    | none => none
    | some matchId =>
        let vtype := vocabulary.getD matchId ""
        some (filename, vtype, dirname filename,
          String.mk (name.toList.drop vtype.toList.length)))

/-- The comparison Python `sorted(..., key=itemgetter(2))` performs on the
`(dir, ext)` grouping keys: lexicographic string-pair order. -/
def sortKeyLE (a b : String × String) : Bool :=
  strLt a.1 b.1 || (a.1 == b.1 && (strLt a.2 b.2 || a.2 == b.2))

/-- Python stable ascending sort (`sorted`, modelled from the Python
standard library, which is outside this repository): insertion sort
placing each element after the already placed elements its key does not
exceed, which is extensionally the stable sort `sorted` performs. -/
def insertSorted {A : Type} (le : A → A → Bool) (x : A) : List A → List A
  | [] => [x]
  | y :: ys => if le y x then y :: insertSorted le x ys else x :: y :: ys

/-- Python `sorted(l, key=...)` as a stable ascending sort (modelled from
the Python standard library, which is outside this repository). -/
def sortStable {A : Type} (le : A → A → Bool) (l : List A) : List A :=
  l.foldl (fun acc x => insertSorted le x acc) []

/-- `itertools.groupby` over an already sorted list: split into maximal
runs of consecutive elements sharing the same `(dir, ext)` key. -/
def chunkRuns : List (String × String × String × String) →
    List (List (String × String × String × String)) :=
  List.foldr (fun x acc =>
    match acc with
    | [] => [[x]]
    | g :: gs =>
        match g with
        | [] => [x] :: gs
        | y :: _ => if x.2.2 = y.2.2 then (x :: g) :: gs else [x] :: g :: gs) []

/-- `group_by_postfix(files, vocabulary)` from scythe/utils/grouping.py:
collect the matchable files, sort them (stably) by `(dir, ext)` key, and
yield the runs of equal keys as groups of file paths. -/
def group_by_postfix (files : List String) (vocabulary : List String) :
    List (List String) :=
  (chunkRuns (sortStable (fun a b => sortKeyLE a.2.2 b.2.2)
    (matchVocab files vocabulary))).map (fun g => g.map (fun t => t.1))

/-- Modelled from the spec: Python `os.path.abspath` composed with
`expanduser` (standard library, outside this repository) — paths are
transformed to absolute form, a relative path being resolved against the
working directory. -/
def os_path_abspath (cwd : String) (p : String) : String :=
  if strStartsWith p "/" then p else cwd ++ "/" ++ p

/-- `preprocess_paths(paths)` from scythe/utils/grouping.py: make every
path absolute (a single path would first be wrapped in a list; here the
input is already a list). -/
def preprocess_paths (cwd : String) (paths : List String) : List String :=
  paths.map (fun f => os_path_abspath cwd f)

/-- The default `BaseExtractor.group` from scythe/base.py: standardize the
paths, then yield every file in its own singleton group. -/
def BaseExtractor.group (cwd : String) (files : List String) : List (List String) :=
  (preprocess_paths cwd files).map (fun f => [f])

/-- `BaseExtractor.extract_directory` from scythe/base.py, with
`identify_files` abstracted into the list of groups it yields: call
`extract` on every group, yield the `(group, record)` pair when it
returns and skip the group when it raises. -/
def extract_directory {G R E : Type} (groups : List G)
    (extract : G → Except E R) : List (G × R) :=
  groups.filterMap (fun g =>
    match extract g with
    | .ok r => some (g, r)
    | .error _ => none)

/-- Python `tuple(int(x) for x in s.split("."))`: split a dotted version
string and parse every component as a (non-negative) integer; `none`
models `int` raising `ValueError` on a non-numeric component. -/
def splitChar (sep : Char) : List Char → List (List Char)
  | [] => [[]]
  | c :: cs =>
      match splitChar sep cs with
      | [] => [[c]]
      | g :: gs => if c = sep then [] :: g :: gs else (c :: g) :: gs

/-- Python `s.split(sep)` for a one-character separator (modelled from
the Python standard library, which is outside this repository):
splitting the empty string yields one empty piece. -/
def pySplit (s : String) (sep : Char) : List String :=
  (splitChar sep s.toList).map String.mk

/-- Accumulator loop for parsing a decimal digit string. -/
def pyIntAux : List Char → Nat → Option Nat
  | [], acc => some acc
  | c :: cs, acc =>
      if '0' ≤ c ∧ c ≤ '9' then pyIntAux cs (10 * acc + (c.toNat - 48))
      else none

/-- Python `int(x)` restricted to the nonnegative decimal digit strings
version components are (modelled from the Python standard library, which
is outside this repository); `none` models `int` raising `ValueError`,
as it does on the empty string or a non-digit. -/
def pyInt? (s : String) : Option Nat :=
  match s.toList with
  | [] => none
  | l => pyIntAux l 0

def parse_version (s : String) : Option (List Nat) :=
  (pySplit s '.').mapM pyInt?

/-- `BaseAdapter.check_compatibility` from scythe/adapters/base.py: an
adapter with no declared version is compatible with every extractor;
otherwise both dotted version strings are parsed into integer tuples and
compared for equality. -/
def check_compatibility (adapter_version : Option String)
    (extractor_version : String) : Except Unit Bool :=
  match adapter_version with
  | none => .ok true
  | some s =>
      match parse_version s, parse_version extractor_version with
      | some a, some b => .ok (decide (a = b))
      | _, _ => .error ()

/-! Helper lemmas about the nested-value store. -/

theorem assocLookup_assocSet (es : List (String × JVal)) (k : String) (v : JVal) :
    assocLookup (assocSet es k v) k = some v := by
  induction es with
  | nil => simp [assocSet, assocLookup]
  | cons e rest ih =>
      obtain ⟨k', v'⟩ := e
      by_cases h : k' = k
      · simp [assocSet, h, assocLookup]
      · simp [assocSet, h, assocLookup, ih]

theorem assocSet_eq_of_lookup (es : List (String × JVal)) (k : String) (c : JVal)
    (h : assocLookup es k = some c) : assocSet es k c = es := by
  induction es with
  | nil => simp [assocLookup] at h
  | cons e rest ih =>
      obtain ⟨k', v'⟩ := e
      by_cases hk : k' = k
      · subst hk
        simp [assocLookup] at h
        simp [assocSet, h]
      · simp [assocLookup, hk] at h
        simp [assocSet, hk, ih h]

theorem isNull_of_not_empty {X : JVal} (h : isEmptyVal X = false) :
    X.isNull = false := by
  cases X <;> simp_all [isEmptyVal, JVal.isNull]

theorem getPath_of_raw {p : List String} {d X : JVal}
    (h : rawResolve d p = some X) :
    getPath d p = .ok (if isEmptyVal X then JVal.null else X) := by
  induction p generalizing d with
  | nil =>
      simp [rawResolve] at h
      subst h
      simp [getPath]
  | cons k rest ih =>
      cases d with
      | dict es =>
          simp only [rawResolve] at h
          cases hl : assocLookup es k with
          | none => rw [hl] at h; simp at h
          | some v =>
              rw [hl] at h
              simp only [getPath, hl]
              exact ih h
      | null => simp [rawResolve] at h
      | int n => simp [rawResolve] at h
      | str s => simp [rawResolve] at h
      | list xs => simp [rawResolve] at h

theorem walk_skip_of_raw {p : List String} {d X v : JVal}
    (h : rawResolve d p = some X) : walkAssign d p v false = .ok d := by
  induction p generalizing d with
  | nil => rfl
  | cons k rest ih =>
      cases d with
      | dict es =>
          simp only [rawResolve] at h
          cases hl : assocLookup es k with
          | none => rw [hl] at h; simp at h
          | some c =>
              rw [hl] at h
              cases rest with
              | nil => simp [walkAssign]
              | cons k' rest' =>
                  simp only [walkAssign, hl, Option.getD_some]
                  rw [ih h]
                  simp [assocSet_eq_of_lookup es k c hl]
      | null => simp [rawResolve] at h
      | int n => simp [rawResolve] at h
      | str s => simp [rawResolve] at h
      | list xs => simp [rawResolve] at h

theorem raw_of_walk_assign {p : List String} {d d' v : JVal}
    (hp : p ≠ []) (h : walkAssign d p v true = .ok d') :
    rawResolve d' p = some v := by
  induction p generalizing d d' with
  | nil => exact absurd rfl hp
  | cons k rest ih =>
      cases rest with
      | nil =>
          cases d with
          | dict es =>
              simp only [walkAssign, if_pos] at h
              cases h
              simp [rawResolve, assocLookup_assocSet]
          | null => simp [walkAssign] at h
          | int n => simp [walkAssign] at h
          | str s => simp [walkAssign] at h
          | list xs => simp [walkAssign] at h
      | cons k' rest' =>
          cases d with
          | dict es =>
              simp only [walkAssign] at h
              cases hw : walkAssign ((assocLookup es k).getD (.dict [])) (k' :: rest') v true with
              | error e => rw [hw] at h; simp at h
              | ok child =>
                  rw [hw] at h
                  simp at h
                  subst h
                  simp only [rawResolve, assocLookup_assocSet]
                  exact ih (by simp) hw
          | null => simp [walkAssign] at h
          | int n => simp [walkAssign] at h
          | str s => simp [walkAssign] at h
          | list xs => simp [walkAssign] at h

theorem walk_assign_ok_of_raw {p : List String} {d X : JVal} (v : JVal)
    (h : rawResolve d p = some X) (hp : p ≠ []) :
    ∃ d', walkAssign d p v true = .ok d' := by
  induction p generalizing d with
  | nil => exact absurd rfl hp
  | cons k rest ih =>
      cases d with
      | dict es =>
          simp only [rawResolve] at h
          cases hl : assocLookup es k with
          | none => rw [hl] at h; simp at h
          | some c =>
              rw [hl] at h
              cases rest with
              | nil => exact ⟨.dict (assocSet es k v), by simp [walkAssign]⟩
              | cons k' rest' =>
                  obtain ⟨child, hchild⟩ := ih h (by simp)
                  refine ⟨.dict (assocSet es k child), ?_⟩
                  simp only [walkAssign, hl, Option.getD_some]
                  rw [hchild]
      | null => simp [rawResolve] at h
      | int n => simp [rawResolve] at h
      | str s => simp [rawResolve] at h
      | list xs => simp [rawResolve] at h

theorem getPath_error_iff {p : List String} {d : JVal} :
    getPath d p = .error () ↔ safeTraversal d p = false := by
  induction p generalizing d with
  | nil => simp [getPath, safeTraversal]
  | cons k rest ih =>
      cases d with
      | dict es =>
          cases hl : assocLookup es k with
          | none => simp [getPath, safeTraversal, hl]
          | some v => simpa [getPath, safeTraversal, hl] using ih
      | null => simp [getPath, safeTraversal]
      | int n => simp [getPath, safeTraversal]
      | str s => simp [getPath, safeTraversal]
      | list xs => simp [getPath, safeTraversal]

theorem getPath_null_of_raw_none {p : List String} {d : JVal}
    (hs : safeTraversal d p = true) (h : rawResolve d p = none) :
    getPath d p = .ok .null := by
  induction p generalizing d with
  | nil => simp [rawResolve] at h
  | cons k rest ih =>
      cases d with
      | dict es =>
          cases hl : assocLookup es k with
          | none => simp [getPath, hl]
          | some v =>
              simp only [safeTraversal, hl] at hs
              simp only [rawResolve, hl] at h
              simpa [getPath, hl] using ih hs h
      | null => simp [safeTraversal] at hs
      | int n => simp [safeTraversal] at hs
      | str s => simp [safeTraversal] at hs
      | list xs => simp [safeTraversal] at hs

theorem get_nested_none_eq (d : JVal) (p : List String) :
    get_nested_dict_value_by_path d p none = getPath d p := by
  unfold get_nested_dict_value_by_path
  cases h : getPath d p with
  | error e => rfl
  | ok v => cases v <;> simp [JVal.isNull]

theorem set_override_raw {d d' V : JVal} {p : List String}
    (hp : p ≠ []) (hV : V.isNull = false)
    (h : set_nested_dict_value d p V true = .ok d') :
    rawResolve d' p = some V := by
  unfold set_nested_dict_value at h
  rw [if_neg (by simp [hV])] at h
  cases hg : getPath d p with
  | error e => rw [hg] at h; simp at h
  | ok orig =>
      rw [hg] at h
      simp only [Bool.or_true] at h
      exact raw_of_walk_assign hp h

/-! Claim theorems. -/

/-- C1, counterexample: the claim fails as stated. The destination path
already holds the value `{}` (an empty mapping), the new value `5` is not
`None`, yet `set` with `override=False` replaces it, because the
set-if-absent check reads the current value through the empty-coercing
getter. -/
theorem C1_counterexample :
    rawResolve (JVal.dict [("a", .dict [])]) ["a"] = some (.dict []) ∧
    set_nested_dict_value (.dict [("a", .dict [])]) ["a"] (.int 5) false =
      .ok (.dict [("a", .int 5)]) ∧
    JVal.dict [("a", .int 5)] ≠ JVal.dict [("a", .dict [])] :=
  ⟨rfl, rfl, by simp⟩

/-- C1 (amended): for every container, non-empty path and non-`None` new
value `Y`, if the destination path already holds a value `X` that is
neither `None` nor empty (not an empty mapping, list or string), then
`set(..., Y, override=False)` leaves the container unchanged, while
`set(..., Y, override=True)` replaces `X` with `Y`. -/
theorem C1_override_policy (d X Y : JVal) (p : List String) (hp : p ≠ [])
    (hX : rawResolve d p = some X) (hne : isEmptyVal X = false)
    (hY : Y.isNull = false) :
    set_nested_dict_value d p Y false = .ok d ∧
    ∃ d', set_nested_dict_value d p Y true = .ok d' ∧
      rawResolve d' p = some Y := by
  have hget : getPath d p = .ok X := by
    rw [getPath_of_raw hX]
    simp [hne]
  have hXnull : X.isNull = false := isNull_of_not_empty hne
  constructor
  · unfold set_nested_dict_value
    rw [if_neg (by simp [hY]), hget]
    simp only [hXnull, Bool.or_false]
    exact walk_skip_of_raw hX
  · obtain ⟨d', hd'⟩ := walk_assign_ok_of_raw Y hX hp
    refine ⟨d', ?_, raw_of_walk_assign hp hd'⟩
    unfold set_nested_dict_value
    rw [if_neg (by simp [hY]), hget]
    simpa [hXnull] using hd'

/-- C1, witness for the amended theorem at a concrete input. -/
theorem C1_witness :
    set_nested_dict_value (.dict [("a", .int 1)]) ["a"] (.int 2) false =
      .ok (.dict [("a", .int 1)]) ∧
    ∃ d', set_nested_dict_value (.dict [("a", .int 1)]) ["a"] (.int 2) true =
      .ok d' ∧ rawResolve d' ["a"] = some (.int 2) :=
  C1_override_policy (.dict [("a", .int 1)]) (.int 1) (.int 2) ["a"]
    (by simp) rfl rfl rfl

/-- C2, counterexample: the claim fails as stated. With the destination
already holding `1`, `set(container, ("a",), 2)` (with its default
`override=False`) writes nothing, so the subsequent `get` returns `1`,
not the value `2` that was set. -/
theorem C2_counterexample :
    set_nested_dict_value (.dict [("a", .int 1)]) ["a"] (.int 2) false =
      .ok (.dict [("a", .int 1)]) ∧
    getPath (.dict [("a", .int 1)]) ["a"] = .ok (.int 1) ∧
    JVal.int 1 ≠ JVal.int 2 :=
  ⟨rfl, rfl, by simp⟩

/-- C2 (amended): for every container, non-empty path and non-`None`
value, if `set(..., override=True)` completes then the value is stored at
the path, and `get` right after returns it provided it is not empty
(an empty value would be read back as `None` by the empty coercion);
after a completed `set_with_unit` the getter returns the unit-wrapped
mapping with key `value` and, when units were given, key `units`; `set`
with value `None` returns the container unchanged, so a later `get`
sees whatever was present before. -/
theorem C2_roundtrip (d d' V : JVal) (p : List String) (hp : p ≠ [])
    (hV : V.isNull = false) :
    (set_nested_dict_value d p V true = .ok d' →
       rawResolve d' p = some V ∧
       (isEmptyVal V = false → getPath d' p = .ok V)) ∧
    (∀ (u : Option String) (fn : Option (JVal → JVal)) (e' : JVal),
       set_nested_dict_value_with_units d p V u true fn = .ok e' →
       getPath e' p = .ok (unitsWrap V u fn)) ∧
    (∀ b : Bool, set_nested_dict_value d p .null b = .ok d) := by
  refine ⟨?_, ?_, ?_⟩
  · intro h
    have hraw := set_override_raw hp hV h
    refine ⟨hraw, fun hne => ?_⟩
    rw [getPath_of_raw hraw]
    simp [hne]
  · intro u fn e' h
    have h' : set_nested_dict_value d p (unitsWrap V u fn) true = .ok e' := by
      simpa [set_nested_dict_value_with_units, unitsWrap, hV] using h
    have hiw : (unitsWrap V u fn).isNull = false := rfl
    have hraw := set_override_raw hp hiw h'
    rw [getPath_of_raw hraw]
    have hie : isEmptyVal (unitsWrap V u fn) = false := rfl
    simp [hie]
  · intro b
    simp [set_nested_dict_value, JVal.isNull]

/-- C2, witness for the amended theorem at a concrete input. -/
theorem C2_witness :
    rawResolve (.dict [("a", .int 3)]) ["a"] = some (.int 3) ∧
    getPath (.dict [("a", .int 3)]) ["a"] = .ok (.int 3) ∧
    set_nested_dict_value (.dict [("x", .int 9)]) ["a"] .null true =
      .ok (.dict [("x", .int 9)]) :=
  ⟨((C2_roundtrip (.dict []) (.dict [("a", .int 3)]) (.int 3) ["a"]
      (by simp) rfl).1 rfl).1,
   ((C2_roundtrip (.dict []) (.dict [("a", .int 3)]) (.int 3) ["a"]
      (by simp) rfl).1 rfl).2 rfl,
   (C2_roundtrip (.dict [("x", .int 9)]) (.dict []) (.int 3) ["a"]
      (by simp) rfl).2.2 true⟩

/-- C3, counterexample: the claim fails as stated. The getter is not
total: resolving the path `("a", "b")` in `{"a": 1}` indexes the integer
`1` with the key `"b"`, which raises `TypeError` (only `KeyError` is
caught). -/
theorem C3_counterexample :
    get_nested_dict_value_by_path (.dict [("a", .int 1)]) ["a", "b"] none =
      .error () := rfl

/-- C3 (amended): the getter raises exactly when the traversal reaches a
non-mapping value with path keys remaining; whenever the traversal stays
inside mappings it returns some value, and that value is `None` exactly
when some key along the path is missing or the resolved value is an
empty mapping, empty list, empty string or `None`; otherwise it is the
resolved value itself. -/
theorem C3_get_totality (d : JVal) (p : List String) :
    (safeTraversal d p = false →
        get_nested_dict_value_by_path d p none = .error ()) ∧
    (safeTraversal d p = true →
        ∃ v, get_nested_dict_value_by_path d p none = .ok v) ∧
    (safeTraversal d p = true → rawResolve d p = none →
        get_nested_dict_value_by_path d p none = .ok .null) ∧
    (∀ X, rawResolve d p = some X → isEmptyVal X = true →
        get_nested_dict_value_by_path d p none = .ok .null) ∧
    (∀ X, rawResolve d p = some X → isEmptyVal X = false →
        get_nested_dict_value_by_path d p none = .ok X) ∧
    (get_nested_dict_value_by_path d p none = .ok .null →
        rawResolve d p = none ∨
          ∃ X, rawResolve d p = some X ∧ isEmptyVal X = true) := by
  rw [get_nested_none_eq]
  refine ⟨?_, ?_, ?_, ?_, ?_, ?_⟩
  · intro h
    exact getPath_error_iff.mpr h
  · intro h
    cases hg : getPath d p with
    | error e =>
        cases e
        rw [getPath_error_iff] at hg
        rw [hg] at h
        cases h
    | ok v => exact ⟨v, rfl⟩
  · intro hs h
    exact getPath_null_of_raw_none hs h
  · intro X h he
    rw [getPath_of_raw h]
    simp [he]
  · intro X h he
    rw [getPath_of_raw h]
    simp [he]
  · intro h
    cases hr : rawResolve d p with
    | none => exact Or.inl rfl
    | some X =>
        refine Or.inr ⟨X, rfl, ?_⟩
        cases hb : isEmptyVal X with
        | true => rfl
        | false =>
            rw [getPath_of_raw hr, hb] at h
            simp at h
            subst h
            simp [isEmptyVal] at hb

/-- C3, witness for the amended theorem at a concrete input: an empty
string stored at the path is read back as `None`. -/
theorem C3_witness :
    get_nested_dict_value_by_path (.dict [("a", .str "")]) ["a"] none =
      .ok .null :=
  (C3_get_totality (.dict [("a", .str "")]) ["a"]).2.2.2.1 (.str "") rfl rfl

/-- C10 (confirmed): for every container, non-empty path and non-`None`
new value, if the value currently stored at the path is an empty
mapping, empty list or empty string, then `set` with `override=False`
still overwrites it, because the set-if-absent check reads the current
value through the empty-normalizing getter. -/
theorem C10_empty_overwrite (d X v : JVal) (p : List String) (hp : p ≠ [])
    (hX : rawResolve d p = some X)
    (hEmpty : X = .dict [] ∨ X = .list [] ∨ X = .str "")
    (hv : v.isNull = false) :
    ∃ d', set_nested_dict_value d p v false = .ok d' ∧
      rawResolve d' p = some v := by
  have hemp : isEmptyVal X = true := by
    rcases hEmpty with h | h | h <;> subst h <;> simp [isEmptyVal]
  have hget : getPath d p = .ok .null := by
    rw [getPath_of_raw hX]
    simp [hemp]
  obtain ⟨d', hd'⟩ := walk_assign_ok_of_raw v hX hp
  refine ⟨d', ?_, raw_of_walk_assign hp hd'⟩
  unfold set_nested_dict_value
  rw [if_neg (by simp [hv]), hget]
  simpa [JVal.isNull] using hd'

/-- C10, witness at a concrete input: the empty string stored at the
destination is overwritten although override is off. -/
theorem C10_witness :
    ∃ d', set_nested_dict_value (.dict [("a", .str "")]) ["a"] (.int 4)
      false = .ok d' ∧ rawResolve d' ["a"] = some (.int 4) :=
  C10_empty_overwrite (.dict [("a", .str "")]) (.str "") (.int 4) ["a"]
    (by simp) rfl (Or.inr (Or.inr rfl)) rfl

/-- C4: evaluation of the grouping code at the failing input from its own
docstring. With files `A.1, B.1, A.2, B.2, C.1` and vocabulary
`["A", "B"]` the code yields NO groups at all — each basename is
lowercased before the `startswith` test while the vocabulary entry is
used as written, so `"a.1"` does not start with `"A"` — although the
docstring of `group_by_postfix` promises the groups `(A.1, B.1)` and
`(A.2, B.2)` for exactly this input. With an already lowercase
vocabulary the promised groups do come out. -/
theorem C4_docstring_example :
    group_by_postfix ["A.1", "B.1", "A.2", "B.2", "C.1"] ["A", "B"] = [] ∧
    group_by_postfix ["A.1", "B.1", "A.2", "B.2", "C.1"] ["a", "b"] =
      [["A.1", "B.1"], ["A.2", "B.2"]] :=
  ⟨rfl, rfl⟩

/-- C5: evaluation of the matching loop at a failing input. The file
`A.1` with vocabulary `["A"]` is NOT matchable — the claim (and the
docstrings) call the match case-insensitive, but only the basename is
lowercased, not the vocabulary entry. The second conjunct shows the
first-match-wins half of the claim: `ab.1` against `["a", "ab"]` strips
the first matching entry `a` (not the longest match `ab`), leaving
postfix `b.1`. -/
theorem C5_match_case :
    matchVocab ["A.1"] ["A"] = [] ∧
    matchVocab ["ab.1"] ["a", "ab"] = [("ab.1", "a", "", "b.1")] :=
  ⟨rfl, rfl⟩

/-- C6, counterexample: the claim fails as stated, because `group` first
standardizes paths to absolute form. For the relative input `a.txt`
(working directory `/w`) the single yielded group holds `/w/a.txt`,
which is not the input file, so the set of groups taken as sets does not
equal the set of input files. -/
theorem C6_counterexample :
    BaseExtractor.group "/w" ["a.txt"] = [["/w/a.txt"]] ∧
    ("/w/a.txt" : String) ≠ "a.txt" :=
  ⟨rfl, by decide⟩

/-- C6 (amended): for every file list, the default group operation yields
exactly one group per file, each group a singleton holding the
standardized (absolute) form of its file; when every input is already in
standardized form, the groups are exactly the singletons of the input
files, so their set equals the set of inputs. -/
theorem C6_identity_grouping (cwd : String) (files : List String) :
    BaseExtractor.group cwd files =
      files.map (fun f => [os_path_abspath cwd f]) ∧
    (BaseExtractor.group cwd files).length = files.length ∧
    (∀ g ∈ BaseExtractor.group cwd files, ∃ f ∈ files,
        g = [os_path_abspath cwd f]) ∧
    ((∀ f ∈ files, os_path_abspath cwd f = f) →
        BaseExtractor.group cwd files = files.map (fun f => [f])) := by
  have hmain : BaseExtractor.group cwd files =
      files.map (fun f => [os_path_abspath cwd f]) := by
    simp [BaseExtractor.group, preprocess_paths, List.map_map]
  refine ⟨hmain, ?_, ?_, ?_⟩
  · rw [hmain]
    simp
  · intro g hg
    rw [hmain] at hg
    simp only [List.mem_map] at hg
    obtain ⟨f, hf, rfl⟩ := hg
    exact ⟨f, hf, rfl⟩
  · intro h
    rw [hmain]
    exact List.map_congr_left (fun f hf => by rw [h f hf])

/-- C6, witness for the amended theorem at a concrete input that is
already an absolute path. -/
theorem C6_witness : BaseExtractor.group "/w" ["/x"] = [["/x"]] := by
  have h := (C6_identity_grouping "/w" ["/x"]).2.2.2 (by
    intro f hf
    simp only [List.mem_singleton] at hf
    subst hf
    rfl)
  simpa using h

/-- C7 (confirmed): `extract_directory` yields `(group, record)` pairs
exactly for the groups whose `extract` call succeeds and skips every
group whose `extract` raises; in particular for one well-formed group and
one raising group it yields exactly the one good result, and, being a
total function of the groups, it raises nothing itself. -/
theorem C7_sweep_resilience {G R E : Type} (groups : List G)
    (ext : G → Except E R) :
    (∀ g r, (g, r) ∈ extract_directory groups ext ↔
        g ∈ groups ∧ ext g = .ok r) ∧
    (∀ g1 g2 r e, groups = [g1, g2] → ext g1 = .ok r → ext g2 = .error e →
        extract_directory groups ext = [(g1, r)]) := by
  constructor
  · intro g r
    constructor
    · intro h
      simp only [extract_directory, List.mem_filterMap] at h
      obtain ⟨a, ha, hfa⟩ := h
      cases he : ext a with
      | ok r' =>
          rw [he] at hfa
          simp only [Option.some.injEq, Prod.mk.injEq] at hfa
          obtain ⟨rfl, rfl⟩ := hfa
          exact ⟨ha, he⟩
      | error e =>
          rw [he] at hfa
          simp at hfa
    · rintro ⟨hg, he⟩
      simp only [extract_directory, List.mem_filterMap]
      exact ⟨g, hg, by rw [he]⟩
  · rintro g1 g2 r e rfl h1 h2
    simp [extract_directory, h1, h2]

/-- C7, witness at a concrete input: two groups, the second raising,
sweep yields exactly the first result. -/
theorem C7_witness :
    extract_directory [0, 1]
      (fun n : Nat => if n = 0 then Except.ok 5 else Except.error ()) =
      [(0, 5)] :=
  (C7_sweep_resilience [0, 1]
    (fun n : Nat => if n = 0 then Except.ok 5 else Except.error ())).2
    0 1 5 () rfl rfl rfl

/-- C8 (confirmed): an adapter declaring no version is compatible with
every extractor; with a declared version, compatibility holds exactly
when both dotted version strings parse into equal integer tuples
(element-wise at equal length); `"0.0.1"` against `"0.0.11"` compares
unequal. -/
theorem C8_adapter_compat :
    (∀ v : String, check_compatibility none v = .ok true) ∧
    (∀ s v a b, parse_version s = some a → parse_version v = some b →
        check_compatibility (some s) v = .ok (decide (a = b))) ∧
    check_compatibility (some "0.0.1") "0.0.11" = .ok false := by
  refine ⟨fun v => rfl, ?_, rfl⟩
  intro s v a b hs hv
  simp [check_compatibility, hs, hv]

/-- C8, witness at a concrete input: equal version strings parse to equal
tuples and compare compatible. -/
theorem C8_witness : check_compatibility (some "1.2") "1.2" = .ok true := by
  have h := C8_adapter_compat.2.1 "1.2" "1.2" [1, 2] [1, 2] rfl rfl
  simpa using h

/-- C9, counterexample: the claim fails as stated. A rule omitting the
`override` key (all four allegedly optional fields omitted) makes the
batch raise `KeyError`: the source applies `setdefault` to `cast_fn`,
`units` and `conv_fn` but then reads `m["override"]` directly. -/
theorem C9_counterexample :
    map_dict_values (.dict [])
      [⟨.dict [("a", .int 1)], ["a"], ["b"], none, none, none, none⟩] =
      .error () := rfl

/-- C9 (amended): the engine processes rules strictly in list order (a
batch is the sequential composition of its prefixes), each rule
performing a store get on its source with its cast followed by
`set_with_unit` on the destination with its unit, convert and override;
`cast`, `unit` and `convert` may be omitted from a rule (their omission
alone never fails the batch), but `override` is required: a rule without
it fails the batch. -/
theorem C9_mapping_engine (dest : JVal)
    (rules1 rules2 : List MappingElements) :
    (map_dict_values dest (rules1 ++ rules2) =
       match map_dict_values dest rules1 with
       | .ok d1 => map_dict_values d1 rules2
       | .error e => .error e) ∧
    (∀ m : MappingElements, ∀ ov : Bool, m.override = some ov →
       map_dict_values dest [m] =
         match get_nested_dict_value_by_path m.source_dict m.source_path
             m.cast_fn with
         | .error e => .error e
         | .ok value => set_nested_dict_value_with_units dest m.dest_path
             value m.units ov m.conv_fn) ∧
    (∀ m : MappingElements, m.override = none → ∀ rest,
       map_dict_values dest (m :: rest) = .error ()) := by
  refine ⟨?_, ?_, ?_⟩
  · induction rules1 generalizing dest with
    | nil => simp [map_dict_values]
    | cons m rest ih =>
        simp only [List.cons_append, map_dict_values]
        cases h : applyMapping dest m with
        | error e => rfl
        | ok d1 => exact ih d1
  · intro m ov hov
    simp only [map_dict_values, applyMapping, hov]
    cases h : get_nested_dict_value_by_path m.source_dict m.source_path
        m.cast_fn with
    | error e => rfl
    | ok value =>
        cases hs : set_nested_dict_value_with_units dest m.dest_path value
            m.units ov m.conv_fn with
        | error e => simp [hs]
        | ok d2 => simp [hs, map_dict_values]
  · intro m hov rest
    simp only [map_dict_values, applyMapping, hov]
    cases h : get_nested_dict_value_by_path m.source_dict m.source_path
        m.cast_fn with
    | error e => cases e; rfl
    | ok value => rfl

/-- C9, witness for the amended theorem at a concrete input: a rule with
`cast`, `unit` and `convert` omitted but `override` present applies
cleanly as a get followed by a unit-wrapping set. -/
theorem C9_witness :
    map_dict_values (.dict [])
      [⟨.dict [("a", .int 1)], ["a"], ["b"], none, none, none, some false⟩] =
      .ok (.dict [("b", .dict [("value", .int 1)])]) := by
  have h := (C9_mapping_engine (.dict []) [] []).2.1
    ⟨.dict [("a", .int 1)], ["a"], ["b"], none, none, none, some false⟩
    false rfl
  rw [h]
  rfl

end Scythe
